import Mathlib

/-!
Verification of the String-Search-Server repository against its
natural-language specification.

The development shallowly embeds the relevant Python code
(`src/server/server.py`, `src/server/config.py`, `src/server/ssl_utils.py`)
as executable Lean functions over `List Char` (text) and `List Nat` (raw
bytes on the wire).  Machine-level effects are made explicit:

* the on-disk corpus file is a `FileState` record carrying the raw file
  content together with boolean fault flags for the environmental failure
  conditions the code catches (file absent, not a regular file, text-mode
  read failure, failure inside the binary open/mmap/find block);
* Python strings are `List Char`; byte strings received from a socket are
  `List Nat` and are decoded by an explicit UTF-8 decoder that mirrors
  CPython's maximal-subpart error handling;
* Python's `str.strip` is modelled on the ASCII whitespace characters
  (space, tab, CR, LF, VT, FF); Lean `Char` holds only Unicode scalar
  values, so un-encodable surrogate queries are not representable and the
  corresponding defensive handler in the source is unreachable here.
-/

set_option maxHeartbeats 1000000

namespace StringSearch

/-! ### Python string primitives -/

/-- The ASCII whitespace characters recognised by Python's `str.strip()`
(space, tab, linefeed, carriage return, vertical tab, form feed). -/
def pyIsSpace (c : Char) : Bool :=
  c = ' ' || c = '\t' || c = '\n' || c = '\r' || c = '\x0b' || c = '\x0c'

/-- Python `str.strip()`: drop whitespace from both ends. -/
def pystrip (l : List Char) : List Char :=
  List.rdropWhile pyIsSpace (List.dropWhile pyIsSpace l)

/-- Python `bytes.rstrip(b"\x00")` after decoding: drop trailing NUL
characters only (embedded NULs are kept, exactly as in the source). -/
def rstripNul (l : List Char) : List Char :=
  List.rdropWhile (fun c => c = '\x00') l

/-- The universal-newline translation performed by Python's text-mode
file reading: `\r\n` and a lone `\r` both become `\n`. -/
def normNL : List Char → List Char
  | [] => []
  | '\r' :: '\n' :: rest => '\n' :: normNL rest
  | '\r' :: rest => '\n' :: normNL rest
  | c :: rest => c :: normNL rest

/-- Splitting translated text into lines the way file iteration yields
them: every `\n` terminates a line; a final segment without terminator
forms a line only when it is non-empty.  The returned lines carry no
terminator, which matches the `line.rstrip("\n")` applied by `_read_file`
to each line. -/
def splitNL : List Char → List (List Char)
  | [] => []
  | c :: rest =>
    if c = '\n' then [] :: splitNL rest
    else
      match splitNL rest with
      | [] => [[c]]
      | l :: ls => (c :: l) :: ls

/-- The lines Python's text-mode iteration produces from raw file
content under universal newlines. -/
def univLines (t : List Char) : List (List Char) :=
  splitNL (normNL t)

/-- An executable model of Python's substring test `needle in hay`. -/
def isSub (n : List Char) : List Char → Bool
  | [] => n.isEmpty
  | c :: rest => n.isPrefixOf (c :: rest) || isSub n rest

/-- Python `"\n".join(lines)`. -/
def joinLines : List (List Char) → List Char
  | [] => []
  | [l] => l
  | l :: ls => l ++ '\n' :: joinLines ls

/-! ### The corpus file and the Corpus Manager (`src/server/server.py`) -/

/-- The observable state of the corpus file at the moment an operation
touches the disk.  `data` is the raw file content; the flags model the
failure conditions the source handles: `present` is `Path.exists()`,
`regular` is `Path.is_file()`, `textReadOk` is false when the text-mode
`open`/read/decode in `_read_file` raises (missing file, permission
denied, undecodable bytes, other OS error), and `scanOk` is false when the
binary `open`/`mmap`/`find` block in `_mmap_search` raises. -/
structure FileState where
  present : Bool
  regular : Bool
  textReadOk : Bool
  scanOk : Bool
  data : List Char
deriving DecidableEq, Repr

/-- A fault-free, readable regular corpus file. -/
def FileState.good (fs : FileState) : Prop :=
  fs.present = true ∧ fs.regular = true ∧ fs.textReadOk = true ∧ fs.scanOk = true

instance (fs : FileState) : Decidable fs.good := by
  unfold FileState.good; infer_instance

/-- A convenient constructor for a fault-free file with the given content. -/
def goodFile (data : List Char) : FileState :=
  ⟨true, true, true, true, data⟩

/-- The server's response tokens. -/
def STRING_EXISTS : List Char := "STRING EXISTS".data

def STRING_NOT_FOUND : List Char := "STRING NOT FOUND".data

/-- `StringSearchServer._read_file`: read all lines of the file, keeping
only lines whose `strip()` is non-empty and removing the newline
terminator; every handled exception path returns the empty list. -/
def _read_file (fs : FileState) : List (List Char) :=
  if fs.present && fs.regular && fs.textReadOk then
    (univLines fs.data).filter (fun l => !(pystrip l).isEmpty)
  else []

/-- `StringSearchServer._load_file_once`: build the static cache, a pair
of the unique-line collection and the joined text.  When the file is not a
regular file, or no contentful line is read, both fields are left empty. -/
def _load_file_once (fs : FileState) : List (List Char) × List Char :=
  if !fs.regular then ([], [])
  else
    let lines := _read_file fs
    if !lines.isEmpty then (lines, joinLines lines)
    else ([], [])

/-- `StringSearchServer._mmap_search`: the memory-mapped byte scan.  A
missing or non-regular file, any exception inside the `open`/`mmap` block
(`scanOk = false`), and the `ValueError` that `mmap` raises on an empty
file all produce `STRING NOT FOUND`; otherwise the result is decided by
substring containment of the query in the raw file content. -/
def _mmap_search (fs : FileState) (s : List Char) : List Char :=
  if !fs.present then STRING_NOT_FOUND
  else if !fs.regular then STRING_NOT_FOUND
  else if !fs.scanOk then STRING_NOT_FOUND
  else if fs.data.isEmpty then STRING_NOT_FOUND
  else if isSub s fs.data then STRING_EXISTS
  else STRING_NOT_FOUND

/-- The per-instance state of `StringSearchServer` that the search path
reads: the mode flag and the two cache fields. -/
structure Server where
  reread_on_query : Bool
  file_lines : List (List Char)
  file_content : List Char
deriving DecidableEq, Repr

/-- The cache-relevant part of `StringSearchServer.__init__`: both cache
fields start empty and `_load_file_once` runs only in static mode. -/
def initServer (reread : Bool) (fs : FileState) : Server :=
  if reread then ⟨true, [], []⟩
  else
    let c := _load_file_once fs
    ⟨false, c.1, c.2⟩

/-- `StringSearchServer.search_string`.  Empty and whitespace-only queries
return `STRING NOT FOUND` at once; otherwise the trimmed query is used.
Dynamic mode delegates to the memory-mapped scan.  Static mode checks
substring containment in the non-empty joined cache text, then membership
in the non-empty line collection, and finally falls back to the
memory-mapped scan. -/
def search_string (srv : Server) (fs : FileState) (s : List Char) : List Char :=
  if s.isEmpty || (pystrip s).isEmpty then STRING_NOT_FOUND
  else
    let search_str := pystrip s
    if srv.reread_on_query then _mmap_search fs search_str
    else if !srv.file_content.isEmpty && isSub search_str srv.file_content then
      STRING_EXISTS
    else if !srv.file_lines.isEmpty && srv.file_lines.contains search_str then
      STRING_EXISTS
    else _mmap_search fs search_str

/-- One query seen as a state transformer: `search_string` assigns no
attribute of the server, so the instance state is returned unchanged. -/
def queryStep (srv : Server) (fs : FileState) (q : List Char) :
    Server × List Char :=
  (srv, search_string srv fs q)

/-! ### The connection handler (`StringSearchServer.handle_client`)

One iteration of the receive loop, for a non-empty received chunk.
`data.decode("utf-8", errors="ignore")` is modelled by an explicit UTF-8
decoder over raw bytes that mirrors CPython: a well-formed sequence
becomes its scalar value, and each maximal invalid subpart is passed to
the error handler, which for `ignore` contributes nothing (the bytes are
dropped, not replaced). -/

/-- Is `b` a UTF-8 continuation byte (`0x80-0xBF`)? -/
def isCont (b : Nat) : Bool := 0x80 ≤ b && b ≤ 0xBF

/-- The admissible second byte of a three-byte sequence headed by `b1`
(`0xE0` excludes overlong forms, `0xED` excludes surrogates). -/
def isCont3 (b1 b2 : Nat) : Bool :=
  if b1 = 0xE0 then 0xA0 ≤ b2 && b2 ≤ 0xBF
  else if b1 = 0xED then 0x80 ≤ b2 && b2 ≤ 0x9F
  else isCont b2

/-- The admissible second byte of a four-byte sequence headed by `b1`
(`0xF0` excludes overlong forms, `0xF4` caps at `U+10FFFF`). -/
def isCont4 (b1 b2 : Nat) : Bool :=
  if b1 = 0xF0 then 0x90 ≤ b2 && b2 ≤ 0xBF
  else if b1 = 0xF4 then 0x80 ≤ b2 && b2 ≤ 0x8F
  else isCont b2

/-- UTF-8 decoding with a fixed error replacement: each maximal invalid
subpart contributes `err` (`[]` models `errors="ignore"`). -/
def utf8Decode (err : List Char) : List Nat → List Char
  | [] => []
  | b1 :: rest =>
    if b1 < 0x80 then Char.ofNat b1 :: utf8Decode err rest
    else if b1 < 0xC2 then err ++ utf8Decode err rest
    else if b1 ≤ 0xDF then
      match rest with
      | [] => err
      | b2 :: r2 =>
        if isCont b2 then
          Char.ofNat ((b1 - 0xC0) * 0x40 + (b2 - 0x80)) :: utf8Decode err r2
        else err ++ utf8Decode err (b2 :: r2)
    else if b1 ≤ 0xEF then
      match rest with
      | [] => err
      | [b2] => if isCont3 b1 b2 then err else err ++ utf8Decode err [b2]
      | b2 :: b3 :: r3 =>
        if isCont3 b1 b2 then
          if isCont b3 then
            Char.ofNat ((b1 - 0xE0) * 0x1000 + (b2 - 0x80) * 0x40 + (b3 - 0x80)) ::
              utf8Decode err r3
          else err ++ utf8Decode err (b3 :: r3)
        else err ++ utf8Decode err (b2 :: b3 :: r3)
    else if b1 ≤ 0xF4 then
      match rest with
      | [] => err
      | [b2] => if isCont4 b1 b2 then err else err ++ utf8Decode err [b2]
      | [b2, b3] =>
        if isCont4 b1 b2 then
          if isCont b3 then err else err ++ utf8Decode err [b3]
        else err ++ utf8Decode err [b2, b3]
      | b2 :: b3 :: b4 :: r4 =>
        if isCont4 b1 b2 then
          if isCont b3 then
            if isCont b4 then
              Char.ofNat ((b1 - 0xF0) * 0x40000 + (b2 - 0x80) * 0x1000 +
                (b3 - 0x80) * 0x40 + (b4 - 0x80)) :: utf8Decode err r4
            else err ++ utf8Decode err (b4 :: r4)
          else err ++ utf8Decode err (b3 :: b4 :: r4)
        else err ++ utf8Decode err (b2 :: b3 :: b4 :: r4)
    else err ++ utf8Decode err rest

/-- `bytes.decode("utf-8", errors="ignore")`: invalid subparts dropped. -/
def decodeIgnore (bs : List Nat) : List Char := utf8Decode [] bs

/-- Modelled from the spec: decoding in which "invalid byte sequences are
replaced, not rejected", i.e. `errors="replace"` semantics producing
`U+FFFD` per maximal invalid subpart.  The source uses `errors="ignore"`;
this definition exists only to compare the two behaviours. -/
def decodeReplaceSpec (bs : List Nat) : List Char := utf8Decode ['�'] bs

/-- The query the handler derives from a received chunk:
`data.decode("utf-8", errors="ignore").rstrip("\x00").strip()`. -/
def queryOfChunk (data : List Nat) : List Char :=
  pystrip (rstripNul (decodeIgnore data))

/-- The bytes written back for one non-empty received chunk (decoded to
`List Char`; the source encodes the same text as UTF-8): an empty derived
query is answered `STRING NOT FOUND\n` without calling the search;
otherwise the search result token followed by one newline. -/
def handle_chunk (srv : Server) (fs : FileState) (data : List Nat) : List Char :=
  let query := queryOfChunk data
  if query.isEmpty then STRING_NOT_FOUND ++ ['\n']
  else search_string srv fs query ++ ['\n']

/-! ### The configuration loader (`src/server/config.py`) -/

/-- The failure kinds of `Config._load_config`: `FileNotFoundError`,
`ValueError` (validation), and everything else re-raised or wrapped
(`PermissionError`, `UnicodeDecodeError`, `RuntimeError`). -/
inductive ConfigErr where
  | fileNotFound
  | validation
  | configuration
deriving DecidableEq, Repr

/-- The attributes `Config.__init__` sets before parsing, with their
defaults; `linuxpath` defaults to the sentinel `"."`. -/
structure ConfigRec where
  host : List Char := "0.0.0.0".data
  port : Int := 44445
  linuxpath : List Char := ".".data
  reread_on_query : Bool := false
  ssl_enabled : Bool := false
  certfile : Option (List Char) := none
  keyfile : Option (List Char) := none
  cafile : Option (List Char) := none
  psk : Option (List Char) := none
deriving DecidableEq, Repr

/-- Python `int(value)` on an already-stripped string: an optional sign
followed by decimal digits, with single underscores permitted between
digits (PEP 515).  Unicode digits are not modelled. -/
def isDigit (c : Char) : Bool := '0' ≤ c && c ≤ '9'

/-- The digit-and-underscore tail check for `int()`. -/
def intTailOk : List Char → Bool
  | [] => true
  | '_' :: rest =>
    match rest with
    | [] => false
    | c :: r2 => isDigit c && intTailOk r2
  | c :: rest => isDigit c && intTailOk rest

/-- Digit string to number, skipping underscores. -/
def digitsVal (l : List Char) : Nat :=
  l.foldl (fun a c => if c = '_' then a else a * 10 + (c.toNat - '0'.toNat)) 0

/-- `int(s)` for a stripped string `s`, as `Option`. -/
def parseIntPy (s : List Char) : Option Int :=
  let core : List Char → Option Int := fun l =>
    match l with
    | [] => none
    | c :: rest =>
      if isDigit c && intTailOk rest then some (digitsVal (c :: rest)) else none
  match s with
  | '+' :: rest => core rest
  | '-' :: rest => (core rest).map (fun n => -n)
  | _ => core s

/-- Python `value.lower() in ("true", "1", "yes")`. -/
def pyBool (v : List Char) : Bool :=
  let lv := v.map Char.toLower
  lv = "true".data || lv = "1".data || lv = "yes".data

/-- `line.split("=", 1)`: the text before the first `=` and the text
after it (callers guard on `=` being present). -/
def splitEq : List Char → List Char × List Char
  | [] => ([], [])
  | c :: rest =>
    if c = '=' then ([], rest)
    else
      let p := splitEq rest
      (c :: p.1, p.2)

/-- The lower-cased key the parser extracts from a raw line. -/
def lineKey (raw : List Char) : List Char :=
  (pystrip (splitEq (pystrip raw)).1).map Char.toLower

/-- The stripped value the parser extracts from a raw line. -/
def lineValue (raw : List Char) : List Char :=
  pystrip (splitEq (pystrip raw)).2

/-- The key dispatch of the parsing loop of `Config._load_config`, on the
lower-cased key and stripped value of a line.  Only the `port` key can
fail, with `ValueError` (validation) on a non-numeric or out-of-range
value; unknown keys are skipped with a warning. -/
def processKV (cfg : ConfigRec) (key value : List Char) :
    Except ConfigErr ConfigRec :=
  if key = "linuxpath".data ∨ key = "file_path".data then
    .ok { cfg with linuxpath := value }
  else if key = "host".data then .ok { cfg with host := value }
  else if key = "port".data then
    match parseIntPy value with
    | none => .error .validation
    | some p =>
      if 1 ≤ p ∧ p ≤ 65535 then .ok { cfg with port := p }
      else .error .validation
  else if key = "reread_on_query".data then
    .ok { cfg with reread_on_query := pyBool value }
  else if key = "ssl_enabled".data then
    .ok { cfg with ssl_enabled := pyBool value }
  else if key = "certfile".data ∨ key = "ssl_certfile".data then
    .ok { cfg with certfile := some value }
  else if key = "keyfile".data ∨ key = "ssl_keyfile".data then
    .ok { cfg with keyfile := some value }
  else if key = "cafile".data ∨ key = "ssl_cafile".data then
    .ok { cfg with cafile := some value }
  else if key = "psk".data then .ok { cfg with psk := some value }
  else .ok cfg

/-- One iteration of the parsing loop of `Config._load_config` on a raw
line: skip blanks, comments and `=`-less lines; otherwise split at the
first `=` and dispatch on the lower-cased key. -/
def process_line (cfg : ConfigRec) (raw : List Char) : Except ConfigErr ConfigRec :=
  if (pystrip raw).isEmpty then .ok cfg
  else if (pystrip raw).head? = some '#' then .ok cfg
  else if !(pystrip raw).contains '=' then .ok cfg
  else processKV cfg (lineKey raw) (lineValue raw)

/-- The `for line in f` loop: process lines in order, aborting the whole
load on the first raised error. -/
def run_lines (cfg : ConfigRec) : List (List Char) → Except ConfigErr ConfigRec
  | [] => .ok cfg
  | l :: rest =>
    match process_line cfg l with
    | .ok cfg2 => run_lines cfg2 rest
    | .error e => .error e

/-- `Config._load_config`: a missing file raises `FileNotFoundError`
before anything is parsed; after the parsing loop, a `linuxpath` that is
empty or still the `"."` sentinel raises `ValueError`. -/
def load_config (fileExists : Bool) (fileLines : List (List Char)) :
    Except ConfigErr ConfigRec :=
  if !fileExists then .error .fileNotFound
  else
    match run_lines {} fileLines with
    | .error e => .error e
    | .ok cfg =>
      if cfg.linuxpath.isEmpty || cfg.linuxpath = ".".data then .error .validation
      else .ok cfg

instance exceptDecEq {e a : Type} [DecidableEq e] [DecidableEq a] :
    DecidableEq (Except e a) := fun x y =>
  match x, y with
  | .ok u, .ok v =>
    if h : u = v then isTrue (by rw [h]) else
      isFalse (fun hc => h (Except.ok.inj hc))
  | .error u, .error v =>
    if h : u = v then isTrue (by rw [h]) else
      isFalse (fun hc => h (Except.error.inj hc))
  | .ok _, .error _ => isFalse Except.noConfusion
  | .error _, .ok _ => isFalse Except.noConfusion

/-! ### The TLS context builder (`src/server/ssl_utils.py`) -/

/-- The exception kinds `create_ssl_context` lets escape. -/
inductive SSLErr where
  | valueError
  | fileNotFound
  | sslError
deriving DecidableEq, Repr

/-- The observable configuration of a produced `ssl.SSLContext`:
`verifyRequired` is `verify_mode == CERT_REQUIRED`, and `hardened`
records the minimum-version/cipher restriction applied at the end. -/
structure SSLCtx where
  serverSide : Bool
  verifyRequired : Bool
  certChainLoaded : Bool
  caLoaded : Bool
  hardened : Bool
deriving DecidableEq, Repr

/-- Python truthiness of an optional string parameter: `None` and the
empty string are falsy. -/
def truthy : Option (List Char) → Bool
  | none => false
  | some s => !s.isEmpty

/-- `create_ssl_context`.  `files` is the set of paths that exist on
disk; `loadChainOk` is false when `SSLContext.load_cert_chain` raises
`ssl.SSLError` for an existing but invalid certificate/key pair.  A
server-side context starts from `Purpose.CLIENT_AUTH`, whose default
verify mode is `CERT_NONE`; a client-side context starts from
`Purpose.SERVER_AUTH`, whose default is `CERT_REQUIRED`.  Verification is
switched to required only when a CA file is loaded and
`verify_client or not server_side` holds. -/
def create_ssl_context (files : List (List Char))
    (certfile keyfile cafile psk : Option (List Char))
    (server_side : Bool := true) (verify_client : Bool := false)
    (loadChainOk : Bool := true) : Except SSLErr SSLCtx :=
  if !truthy certfile && !truthy keyfile && !truthy psk then .error .valueError
  else if (truthy certfile && !truthy keyfile) ||
      (truthy keyfile && !truthy certfile) then .error .valueError
  else
    let ctx : SSLCtx :=
      { serverSide := server_side, verifyRequired := !server_side,
        certChainLoaded := false, caLoaded := false, hardened := false }
    let step1 : Except SSLErr SSLCtx :=
      if truthy certfile && truthy keyfile then
        if !files.contains (certfile.getD []) then .error .fileNotFound
        else if !files.contains (keyfile.getD []) then .error .fileNotFound
        else if !loadChainOk then .error .sslError
        else .ok { ctx with certChainLoaded := true }
      else .ok ctx
    match step1 with
    | .error e => .error e
    | .ok c1 =>
      let step2 : Except SSLErr SSLCtx :=
        if truthy cafile then
          if !files.contains (cafile.getD []) then .error .fileNotFound
          else
            let vm := c1.verifyRequired || (verify_client || !server_side)
            .ok { c1 with caLoaded := true, verifyRequired := vm }
        else .ok c1
      match step2 with
      | .error e => .error e
      | .ok c2 => .ok { c2 with hardened := true }

/-- The outcome of `StringSearchServer.__init__` after the configuration
has loaded: the corpus cache plus the TLS fields.  The `except
(ValueError, FileNotFoundError)` handler degrades to plaintext; any other
exception (in particular `ssl.SSLError`) escapes to the generic handler
and aborts initialization with `RuntimeError`, modelled as `.error ()`. -/
structure ServerInit where
  srv : Server
  ssl_enabled : Bool
  ssl_context : Option SSLCtx
deriving DecidableEq, Repr

/-- The TLS phase of `StringSearchServer.__init__`. -/
def init_with_ssl (cfg : ConfigRec) (fs : FileState)
    (files : List (List Char)) (loadChainOk : Bool) :
    Except Unit ServerInit :=
  let srv := initServer cfg.reread_on_query fs
  if cfg.ssl_enabled then
    match create_ssl_context files cfg.certfile cfg.keyfile cfg.cafile cfg.psk
        true false loadChainOk with
    | .ok ctx => .ok ⟨srv, true, some ctx⟩
    | .error .valueError => .ok ⟨srv, false, none⟩
    | .error .fileNotFound => .ok ⟨srv, false, none⟩
    | .error .sslError => .error ()
  else .ok ⟨srv, false, none⟩

/-! ### Predicates describing configuration lines (used in statements) -/

/-- A raw line the parser dispatches to the `port` key. -/
def IsPortLine (raw : List Char) : Prop :=
  (pystrip raw).isEmpty = false ∧ (pystrip raw).head? ≠ some '#' ∧
    (pystrip raw).contains '=' = true ∧ lineKey raw = "port".data

instance (raw : List Char) : Decidable (IsPortLine raw) := by
  unfold IsPortLine; infer_instance

/-- A port value that `int()` rejects or that falls outside 1-65535. -/
def BadPortValue (raw : List Char) : Bool :=
  match parseIntPy (lineValue raw) with
  | none => true
  | some p => !(1 ≤ p && p ≤ 65535)

/-- A raw line the parser dispatches to the corpus-path key
(`linuxpath` or `file_path`). -/
def IsCorpusPathLine (raw : List Char) : Prop :=
  (pystrip raw).isEmpty = false ∧ (pystrip raw).head? ≠ some '#' ∧
    (pystrip raw).contains '=' = true ∧
    (lineKey raw = "linuxpath".data ∨ lineKey raw = "file_path".data)

instance (raw : List Char) : Decidable (IsCorpusPathLine raw) := by
  unfold IsCorpusPathLine; infer_instance

/-! ### Helper lemmas -/

theorem isSub_iff (n h : List Char) : isSub n h = true ↔ n <:+: h := by
  induction h with
  | nil => simp [isSub, List.isEmpty_iff]
  | cons c rest ih => simp [isSub, ih, List.infix_cons_iff]

theorem dropWhile_of_rdropWhile {p : Char → Bool} {l : List Char}
    (h : List.dropWhile p l = l) :
    List.dropWhile p (List.rdropWhile p l) = List.rdropWhile p l := by
  rw [List.dropWhile_eq_self_iff] at h ⊢
  intro hl
  have hpre : List.rdropWhile p l <+: l := List.rdropWhile_prefix p l
  have hget := hpre.getElem (n := 0) (by simpa using hl)
  simp only [List.get_eq_getElem, hget]
  exact h (lt_of_lt_of_le (by simpa using hl) hpre.length_le)

theorem pystrip_idem (l : List Char) : pystrip (pystrip l) = pystrip l := by
  unfold pystrip
  rw [dropWhile_of_rdropWhile (List.dropWhile_idempotent _ _),
    List.rdropWhile_idempotent]

theorem pystrip_inf_self (l : List Char) : pystrip l <:+: l :=
  (List.rdropWhile_prefix pyIsSpace _).isInfix.trans
    (List.dropWhile_suffix pyIsSpace).isInfix

theorem pystrip_nil : pystrip [] = [] := rfl

theorem ne_nil_of_pystrip_ne_nil {l : List Char} (h : pystrip l ≠ []) : l ≠ [] := by
  intro hl; subst hl; exact h pystrip_nil

theorem splitNL_head_pre :
    ∀ (s : List Char) (l : List Char) (ls : List (List Char)),
      splitNL s = l :: ls → l <+: s := by
  intro s
  induction s with
  | nil => intro l ls h; simp [splitNL] at h
  | cons c rest ih =>
    intro l ls h
    by_cases hc : c = '\n'
    · simp only [splitNL, hc, if_pos rfl] at h
      cases h
      exact List.nil_prefix
    · simp only [splitNL, if_neg hc] at h
      rcases hr : splitNL rest with _ | ⟨l₀, ls₀⟩
      · rw [hr] at h
        cases h
        exact ⟨rest, rfl⟩
      · rw [hr] at h
        cases h
        obtain ⟨t, ht⟩ := ih _ _ hr
        exact ⟨t, by rw [List.cons_append, ht]⟩

theorem splitNL_nil : splitNL [] = [] := rfl

theorem splitNL_cons_nl (rest : List Char) :
    splitNL ('\n' :: rest) = [] :: splitNL rest := by
  simp [splitNL]

theorem splitNL_cons_ne (c : Char) (rest : List Char) (hc : c ≠ '\n') :
    splitNL (c :: rest) =
      match splitNL rest with
      | [] => [[c]]
      | l :: ls => (c :: l) :: ls := by
  simp [splitNL, hc]

theorem splitNL_mem_inf {l : List Char} :
    ∀ {s : List Char}, l ∈ splitNL s → l <:+: s := by
  intro s
  induction s with
  | nil => intro h; simp [splitNL_nil] at h
  | cons c rest ih =>
    intro h
    by_cases hc : c = '\n'
    · subst hc
      rw [splitNL_cons_nl] at h
      rcases List.mem_cons.mp h with h | h
      · simp [h]
      · exact (ih h).trans (List.suffix_cons '\n' rest).isInfix
    · rw [splitNL_cons_ne c rest hc] at h
      rcases hr : splitNL rest with _ | ⟨l₀, ls₀⟩
      · rw [hr] at h
        simp only [List.mem_singleton] at h
        subst h
        exact ⟨[], rest, rfl⟩
      · rw [hr] at h
        rcases List.mem_cons.mp h with h | h
        · subst h
          obtain ⟨t, ht⟩ := splitNL_head_pre rest l₀ ls₀ hr
          exact ⟨[], t, by simp [← ht]⟩
        · have hm : l ∈ splitNL rest := by
            rw [hr]; exact List.mem_cons_of_mem _ h
          exact (ih hm).trans (List.suffix_cons c rest).isInfix

theorem splitNL_mem_no_nl :
    ∀ (s : List Char) (l : List Char), l ∈ splitNL s → '\n' ∉ l := by
  intro s
  induction s with
  | nil => intro l h; simp [splitNL_nil] at h
  | cons c rest ih =>
    intro l h
    by_cases hc : c = '\n'
    · subst hc
      rw [splitNL_cons_nl] at h
      rcases List.mem_cons.mp h with h | h
      · simp [h]
      · exact ih l h
    · rw [splitNL_cons_ne c rest hc] at h
      rcases hr : splitNL rest with _ | ⟨l₀, ls₀⟩
      · rw [hr] at h
        simp only [List.mem_singleton] at h
        subst h
        intro hmem
        rcases List.mem_singleton.mp hmem with h'
        exact hc h'.symm
      · rw [hr] at h
        rcases List.mem_cons.mp h with h | h
        · subst h
          intro hmem
          rcases List.mem_cons.mp hmem with h' | h'
          · exact hc h'.symm
          · exact ih l₀ (by rw [hr]; exact List.mem_cons_self l₀ ls₀) h'
        · exact ih l (by rw [hr]; exact List.mem_cons_of_mem _ h)

theorem normNL_nil : normNL [] = [] := rfl

theorem normNL_crlf (rest : List Char) :
    normNL ('\r' :: '\n' :: rest) = '\n' :: normNL rest := rfl

theorem normNL_cr_nil : normNL ['\r'] = ['\n'] := rfl

theorem normNL_cr_ne (c2 : Char) (r : List Char) (h : c2 ≠ '\n') :
    normNL ('\r' :: c2 :: r) = '\n' :: normNL (c2 :: r) := by
  simp [normNL, h]

theorem normNL_cons_ne (c : Char) (rest : List Char) (hc : c ≠ '\r') :
    normNL (c :: rest) = c :: normNL rest := by
  cases rest with
  | nil => simp [normNL, hc]
  | cons c2 r => simp [normNL, hc]

theorem normNL_no_cr : ∀ (t : List Char), '\r' ∉ normNL t := by
  intro t
  induction t using normNL.induct with
  | case1 => simp [normNL_nil]
  | case2 rest ih => rw [normNL_crlf]; simpa using ih
  | case3 rest hne ih =>
    cases rest with
    | nil => rw [normNL_cr_nil]; simp
    | cons c2 r =>
      have hc2 : c2 ≠ '\n' := fun h => hne r (by rw [h])
      rw [normNL_cr_ne c2 r hc2]
      simpa using ih
  | case4 c rest h1 h2 ih =>
    have hc : c ≠ '\r' := fun h => h2 h
    rw [normNL_cons_ne c rest hc]
    simp only [List.mem_cons]
    rintro (h | h)
    · exact hc h.symm
    · exact ih h

theorem normNL_pre :
    ∀ (t : List Char), ∀ q : List Char, '\n' ∉ q → q <+: normNL t → q <+: t := by
  intro t
  induction t using normNL.induct with
  | case1 => simp [normNL_nil]
  | case2 rest ih =>
    intro q hn h
    rcases q with _ | ⟨x, q'⟩
    · exact List.nil_prefix
    · rw [normNL_crlf, List.cons_prefix_cons] at h
      exact absurd (h.1 ▸ List.mem_cons_self x q') hn
  | case3 rest hne ih =>
    intro q hn h
    rcases q with _ | ⟨x, q'⟩
    · exact List.nil_prefix
    · exfalso
      cases rest with
      | nil =>
        rw [normNL_cr_nil, List.cons_prefix_cons] at h
        exact hn (h.1 ▸ List.mem_cons_self x q')
      | cons c2 r =>
        have hc2 : c2 ≠ '\n' := fun hh => hne r (by rw [hh])
        rw [normNL_cr_ne c2 r hc2, List.cons_prefix_cons] at h
        exact hn (h.1 ▸ List.mem_cons_self x q')
  | case4 c rest h1 h2 ih =>
    intro q hn h
    rcases q with _ | ⟨x, q'⟩
    · exact List.nil_prefix
    · have hc : c ≠ '\r' := fun hh => h2 hh
      rw [normNL_cons_ne c rest hc, List.cons_prefix_cons] at h
      have hq' : '\n' ∉ q' := fun hm => hn (List.mem_cons_of_mem x hm)
      exact List.cons_prefix_cons.mpr ⟨h.1, ih q' hq' h.2⟩

theorem normNL_inf :
    ∀ (t : List Char), ∀ q : List Char, '\n' ∉ q → '\r' ∉ q →
      q <:+: normNL t → q <:+: t := by
  intro t
  induction t using normNL.induct with
  | case1 => simp [normNL_nil]
  | case2 rest ih =>
    intro q hn hr h
    rw [normNL_crlf] at h
    rcases List.infix_cons_iff.mp h with h | h
    · rcases q with _ | ⟨x, q'⟩
      · exact List.nil_infix
      · rw [List.cons_prefix_cons] at h
        exact absurd (h.1 ▸ List.mem_cons_self x q') hn
    · exact ((ih q hn hr h).trans (List.suffix_cons '\n' rest).isInfix).trans
        (List.suffix_cons '\r' ('\n' :: rest)).isInfix
  | case3 rest hne ih =>
    intro q hn hr h
    have hstep : normNL ('\r' :: rest) = '\n' :: normNL rest := by
      cases rest with
      | nil => exact normNL_cr_nil
      | cons c2 r => exact normNL_cr_ne c2 r (fun hh => hne r (by rw [hh]))
    rw [hstep] at h
    rcases List.infix_cons_iff.mp h with h | h
    · rcases q with _ | ⟨x, q'⟩
      · exact List.nil_infix
      · rw [List.cons_prefix_cons] at h
        exact absurd (h.1 ▸ List.mem_cons_self x q') hn
    · exact (ih q hn hr h).trans (List.suffix_cons '\r' rest).isInfix
  | case4 c rest h1 h2 ih =>
    intro q hn hr h
    have hc : c ≠ '\r' := fun hh => h2 hh
    rw [normNL_cons_ne c rest hc] at h
    rcases List.infix_cons_iff.mp h with h | h
    · rcases q with _ | ⟨x, q'⟩
      · exact List.nil_infix
      · rw [List.cons_prefix_cons] at h
        have hq' : '\n' ∉ q' := fun hm => hn (List.mem_cons_of_mem x hm)
        exact (List.cons_prefix_cons.mpr ⟨h.1, normNL_pre rest q' hq' h.2⟩).isInfix
    · exact (ih q hn hr h).trans (List.suffix_cons c rest).isInfix

/-- Every line produced from raw file content occurs contiguously in that
content. -/
theorem univLines_mem_inf {l t : List Char} (h : l ∈ univLines t) : l <:+: t := by
  have h1 : l <:+: normNL t := splitNL_mem_inf h
  have hn : '\n' ∉ l := splitNL_mem_no_nl (normNL t) l h
  have hr : '\r' ∉ l := fun hm => normNL_no_cr t (h1.subset hm)
  exact normNL_inf t l hn hr h1

theorem joinLines_cons_cons (a b : List Char) (r : List (List Char)) :
    joinLines (a :: b :: r) = a ++ '\n' :: joinLines (b :: r) := rfl

theorem mem_joinLines_inf {l : List Char} :
    ∀ {ls : List (List Char)}, l ∈ ls → l <:+: joinLines ls := by
  intro ls
  induction ls with
  | nil => intro h; simp at h
  | cons a r ih =>
    intro h
    rcases List.mem_cons.mp h with h | h
    · subst h
      cases r with
      | nil => exact List.infix_rfl
      | cons b r2 =>
        rw [joinLines_cons_cons]
        exact ⟨[], '\n' :: joinLines (b :: r2), rfl⟩
    · cases r with
      | nil => simp at h
      | cons b r2 =>
        rw [joinLines_cons_cons]
        exact (ih h).trans
          ((List.suffix_cons '\n' (joinLines (b :: r2))).isInfix.trans
            (List.suffix_append a ('\n' :: joinLines (b :: r2))).isInfix)

theorem joinLines_cons_ne_nil {a : List Char} {r : List (List Char)}
    (ha : a ≠ []) : joinLines (a :: r) ≠ [] := by
  cases r with
  | nil => exact ha
  | cons b r2 =>
    rw [joinLines_cons_cons]
    intro h
    rcases List.append_eq_nil.mp h with ⟨_, h2⟩
    exact List.cons_ne_nil _ _ h2

theorem prefix_append_cons_split {q b : List Char} {c : Char} (hc : c ∉ q) :
    ∀ {a : List Char}, q <+: a ++ c :: b → q <+: a := by
  intro a
  induction a generalizing q with
  | nil =>
    intro h
    rcases q with _ | ⟨x, q'⟩
    · exact List.nil_prefix
    · rw [List.nil_append, List.cons_prefix_cons] at h
      exact absurd (h.1 ▸ List.mem_cons_self x q') hc
  | cons y a' ih =>
    intro h
    rcases q with _ | ⟨x, q'⟩
    · exact List.nil_prefix
    · rw [List.cons_append, List.cons_prefix_cons] at h
      have hc' : c ∉ q' := fun hm => hc (List.mem_cons_of_mem x hm)
      exact List.cons_prefix_cons.mpr ⟨h.1, ih hc' h.2⟩

theorem infix_append_cons_split {q b : List Char} {c : Char}
    (hq : q ≠ []) (hc : c ∉ q) :
    ∀ {a : List Char}, q <:+: a ++ c :: b → q <:+: a ∨ q <:+: b := by
  intro a
  induction a with
  | nil =>
    intro h
    rw [List.nil_append] at h
    rcases List.infix_cons_iff.mp h with h | h
    · rcases q with _ | ⟨x, q'⟩
      · exact absurd rfl hq
      · rw [List.cons_prefix_cons] at h
        exact absurd (h.1 ▸ List.mem_cons_self x q') hc
    · exact Or.inr h
  | cons y a' ih =>
    intro h
    rw [List.cons_append] at h
    rcases List.infix_cons_iff.mp h with h | h
    · rw [show y :: (a' ++ c :: b) = (y :: a') ++ c :: b from rfl] at h
      exact Or.inl (prefix_append_cons_split hc h).isInfix
    · rcases ih h with h | h
      · exact Or.inl (h.trans (List.suffix_cons y a').isInfix)
      · exact Or.inr h

/-- A `\n`-free non-empty string occurring in a `\n`-join occurs in one of
the joined pieces. -/
theorem joinLines_split {q : List Char} (hq : q ≠ []) (hn : '\n' ∉ q) :
    ∀ {ls : List (List Char)}, q <:+: joinLines ls → ∃ l ∈ ls, q <:+: l := by
  intro ls
  induction ls with
  | nil =>
    intro h
    exact absurd (List.infix_nil.mp h) hq
  | cons a r ih =>
    intro h
    cases r with
    | nil => exact ⟨a, List.mem_singleton_self a, h⟩
    | cons b r2 =>
      rw [joinLines_cons_cons] at h
      rcases infix_append_cons_split hq hn h with h | h
      · exact ⟨a, List.mem_cons_self a _, h⟩
      · obtain ⟨l, hl, hli⟩ := ih h
        exact ⟨l, List.mem_cons_of_mem a hl, hli⟩

theorem contains_iff_mem {l : List (List Char)} {a : List Char} :
    l.contains a = true ↔ a ∈ l := by
  simp [List.contains, List.elem_iff]

theorem tokens_ne : STRING_EXISTS ≠ STRING_NOT_FOUND := by decide

theorem read_file_mem {fs : FileState} {l : List Char}
    (h : l ∈ _read_file fs) : l ∈ univLines fs.data ∧ pystrip l ≠ [] := by
  unfold _read_file at h
  split at h
  · rcases List.mem_filter.mp h with ⟨h1, h2⟩
    exact ⟨h1, by simpa using h2⟩
  · simp at h

/-- The static cache is either fully empty (exactly when nothing was
read) or exactly the filtered line list with its join. -/
theorem load_file_cases (fs : FileState) :
    (_read_file fs = [] ∧ _load_file_once fs = ([], [])) ∨
      (_read_file fs ≠ [] ∧
        _load_file_once fs = (_read_file fs, joinLines (_read_file fs))) := by
  unfold _load_file_once
  split
  · rename_i hreg
    refine Or.inl ⟨?_, rfl⟩
    unfold _read_file
    rw [if_neg]
    simp only [Bool.not_eq_true'] at hreg
    simp [hreg]
  · dsimp only
    split
    · rename_i h
      exact Or.inr ⟨by simpa using h, rfl⟩
    · rename_i h
      exact Or.inl ⟨by simpa using h, rfl⟩

theorem mmap_token (fs : FileState) (s : List Char) :
    _mmap_search fs s = STRING_EXISTS ∨ _mmap_search fs s = STRING_NOT_FOUND := by
  unfold _mmap_search
  split
  · exact Or.inr rfl
  split
  · exact Or.inr rfl
  split
  · exact Or.inr rfl
  split
  · exact Or.inr rfl
  split
  · exact Or.inl rfl
  · exact Or.inr rfl

theorem search_token (srv : Server) (fs : FileState) (s : List Char) :
    search_string srv fs s = STRING_EXISTS ∨
      search_string srv fs s = STRING_NOT_FOUND := by
  unfold search_string
  split
  · exact Or.inr rfl
  dsimp only
  split
  · exact mmap_token fs _
  split
  · exact Or.inl rfl
  split
  · exact Or.inl rfl
  · exact mmap_token fs _

theorem mmap_err {fs : FileState} (s : List Char)
    (h : fs.present = false ∨ fs.regular = false ∨ fs.scanOk = false) :
    _mmap_search fs s = STRING_NOT_FOUND := by
  unfold _mmap_search
  rcases h with h | h | h <;> simp [h]

theorem mmap_not_found {fs : FileState} {s : List Char}
    (h : isSub s fs.data = false) : _mmap_search fs s = STRING_NOT_FOUND := by
  unfold _mmap_search
  split
  · rfl
  split
  · rfl
  split
  · rfl
  split
  · rfl
  split
  · rename_i hs
    rw [h] at hs
    cases hs
  · rfl

theorem isSub_nil_left (h : List Char) : isSub [] h = true :=
  (isSub_iff [] h).mpr List.nil_infix

theorem isSub_nil_right {s : List Char} (hs : s ≠ []) : isSub s [] = false := by
  rw [show isSub s [] = s.isEmpty from rfl]
  simpa [List.isEmpty_iff] using hs

theorem initServer_static (fs : FileState) :
    initServer false fs =
      ⟨false, (_load_file_once fs).1, (_load_file_once fs).2⟩ := rfl

theorem initServer_dynamic (fs : FileState) :
    initServer true fs = ⟨true, [], []⟩ := rfl

/-- A whitespace-only query is rejected before any mode dispatch. -/
theorem search_empty_query (srv : Server) (fs : FileState) {q : List Char}
    (hq : pystrip q = []) : search_string srv fs q = STRING_NOT_FOUND := by
  unfold search_string
  rw [if_pos]
  simp [hq]

/-- Evaluation of a dynamic-mode search for a contentful query. -/
theorem search_dynamic_eval (lines : List (List Char)) (content : List Char)
    (fs : FileState) {q : List Char} (hq : pystrip q ≠ []) :
    search_string ⟨true, lines, content⟩ fs q = _mmap_search fs (pystrip q) := by
  have hqe : q.isEmpty = false := by
    simpa [List.isEmpty_iff] using ne_nil_of_pystrip_ne_nil hq
  have hpe : (pystrip q).isEmpty = false := by simpa [List.isEmpty_iff] using hq
  unfold search_string
  simp [hqe, hpe]

/-- Evaluation of a static-mode search for a contentful query: the
emptiness guards on the two cache fields are absorbed into the checks
themselves, which fail anyway on empty caches. -/
theorem search_static_eval (lines : List (List Char)) (content : List Char)
    (fs : FileState) {q : List Char} (hq : pystrip q ≠ []) :
    search_string ⟨false, lines, content⟩ fs q =
      if isSub (pystrip q) content then STRING_EXISTS
      else if lines.contains (pystrip q) then STRING_EXISTS
      else _mmap_search fs (pystrip q) := by
  have hqe : q.isEmpty = false := by
    simpa [List.isEmpty_iff] using ne_nil_of_pystrip_ne_nil hq
  have hpe : (pystrip q).isEmpty = false := by simpa [List.isEmpty_iff] using hq
  unfold search_string
  cases hsub : isSub (pystrip q) content with
  | true =>
    have hc : content ≠ [] := by
      intro h0
      subst h0
      rw [isSub_nil_right hq] at hsub
      cases hsub
    have hce : content.isEmpty = false := by simpa [List.isEmpty_iff] using hc
    simp [hqe, hpe, hsub, hce]
  | false =>
    cases hcon : lines.contains (pystrip q) with
    | true =>
      have hl : lines ≠ [] := by
        intro h0
        subst h0
        simp [List.contains] at hcon
      have hle : lines.isEmpty = false := by simpa [List.isEmpty_iff] using hl
      have hmem : pystrip q ∈ lines := contains_iff_mem.mp hcon
      simp [hqe, hpe, hsub, hcon, hle, hmem]
    | false =>
      have hmem : pystrip q ∉ lines := fun hm => by
        rw [contains_iff_mem.mpr hm] at hcon
        cases hcon
      simp [hqe, hpe, hsub, hcon, hmem]

/-! ### Claim theorems -/

/-- C8: after initialization the two cache fields are populated together
or not at all; in dynamic mode both are empty; and a query returns the
instance state unchanged, so the invariant is preserved by every
operation and no query ever populates the cache. -/
theorem C8_cache_invariant :
    (∀ (reread : Bool) (fs : FileState),
      ((initServer reread fs).file_lines = [] ↔
        (initServer reread fs).file_content = []) ∧
      (reread = true → (initServer reread fs).file_lines = [] ∧
        (initServer reread fs).file_content = [])) ∧
    (∀ (srv : Server) (fs : FileState) (q : List Char),
      (queryStep srv fs q).1 = srv) := by
  constructor
  · intro reread fs
    cases reread with
    | true =>
      rw [initServer_dynamic]
      exact ⟨by simp, fun _ => ⟨rfl, rfl⟩⟩
    | false =>
      rw [initServer_static]
      refine ⟨?_, fun h => absurd h (by simp)⟩
      rcases load_file_cases fs with ⟨h0, heq⟩ | ⟨hne, heq⟩
      · rw [heq]; simp
      · rw [heq]
        dsimp only
        obtain ⟨a, r, ha⟩ := List.exists_cons_of_ne_nil hne
        have hmem : a ∈ _read_file fs := ha ▸ List.mem_cons_self a r
        have hanil : a ≠ [] :=
          ne_nil_of_pystrip_ne_nil (read_file_mem hmem).2
        have hjoin : joinLines (_read_file fs) ≠ [] := by
          rw [ha]; exact joinLines_cons_ne_nil hanil
        constructor
        · intro h; exact absurd h hne
        · intro h; exact absurd h hjoin
  · intro srv fs q; rfl

/-- Witness for C8 at a concrete dynamic-mode server. -/
theorem C8_witness :
    ((initServer true (goodFile "a\n".data)).file_lines = [] ∧
      (initServer true (goodFile "a\n".data)).file_content = []) ∧
    (queryStep (initServer true (goodFile "a\n".data)) (goodFile "a\n".data)
      "a".data).1 = initServer true (goodFile "a\n".data) :=
  ⟨(C8_cache_invariant.1 true (goodFile "a\n".data)).2 rfl,
   C8_cache_invariant.2 _ _ _⟩

/-- C9: for every query whose whitespace-trimmed form is non-empty, the
search result equals the result on the trimmed form, in either mode. -/
theorem C9_whitespace_invariance (srv : Server) (fs : FileState)
    (q : List Char) (h : pystrip q ≠ []) :
    search_string srv fs q = search_string srv fs (pystrip q) := by
  have hqe : q.isEmpty = false := by
    simpa [List.isEmpty_iff] using ne_nil_of_pystrip_ne_nil h
  have hpe : (pystrip q).isEmpty = false := by simpa [List.isEmpty_iff] using h
  unfold search_string
  rw [pystrip_idem, hqe, hpe]

/-- Witness for C9 at a concrete padded query. -/
theorem C9_witness :
    search_string (initServer false (goodFile "apple\n".data))
        (goodFile "apple\n".data) "  apple ".data =
      search_string (initServer false (goodFile "apple\n".data))
        (goodFile "apple\n".data) (pystrip "  apple ".data) :=
  C9_whitespace_invariance _ _ _ (by decide)

/-- C2 (amended to queries whose trimmed form is non-empty): in dynamic
mode the search equals the memory-mapped scan of the trimmed query and is
independent of the cache; in static mode the joined-text substring check
decides first (independently of the file), then exact line-set
membership (independently of the file), and the memory-mapped scan is
consulted only when neither matched. -/
theorem C2_check_order (srv : Server) (fs : FileState) (q : List Char)
    (hq : pystrip q ≠ []) :
    (srv.reread_on_query = true →
      search_string srv fs q = _mmap_search fs (pystrip q) ∧
      ∀ srv2 : Server, srv2.reread_on_query = true →
        search_string srv fs q = search_string srv2 fs q) ∧
    (srv.reread_on_query = false →
      (isSub (pystrip q) srv.file_content = true →
        ∀ fs2 : FileState, search_string srv fs2 q = STRING_EXISTS) ∧
      (isSub (pystrip q) srv.file_content = false →
        pystrip q ∈ srv.file_lines →
        ∀ fs2 : FileState, search_string srv fs2 q = STRING_EXISTS) ∧
      (isSub (pystrip q) srv.file_content = false →
        pystrip q ∉ srv.file_lines →
        search_string srv fs q = _mmap_search fs (pystrip q))) := by
  rcases srv with ⟨r, lines, content⟩
  constructor
  · intro hr
    simp only at hr
    subst hr
    refine ⟨search_dynamic_eval lines content fs hq, ?_⟩
    intro srv2 hr2
    rcases srv2 with ⟨r2, lines2, content2⟩
    simp only at hr2
    subst hr2
    rw [search_dynamic_eval lines content fs hq,
      search_dynamic_eval lines2 content2 fs hq]
  · intro hr
    simp only at hr
    subst hr
    refine ⟨?_, ?_, ?_⟩
    · intro hsub fs2
      rw [search_static_eval lines content fs2 hq, if_pos hsub]
    · intro hsub hmem fs2
      rw [search_static_eval lines content fs2 hq, if_neg (by simp [hsub]),
        if_pos (contains_iff_mem.mpr hmem)]
    · intro hsub hmem
      rw [search_static_eval lines content fs hq, if_neg (by simp [hsub]),
        if_neg]
      intro hcon
      exact hmem (contains_iff_mem.mp hcon)

/-- Counterexample for C2 as stated: the whitespace-only query `" "` is
non-empty, yet in dynamic mode it is answered without the memory-mapped
scan, whose result (on the raw and on the trimmed query) differs. -/
theorem C2_counterexample :
    search_string ⟨true, [], []⟩ (goodFile " x".data) " ".data =
        STRING_NOT_FOUND ∧
      _mmap_search (goodFile " x".data) " ".data = STRING_EXISTS ∧
      _mmap_search (goodFile " x".data) (pystrip " ".data) = STRING_EXISTS := by
  decide

/-- Witness for C2: a static-mode cache hit decides without the file. -/
theorem C2_witness :
    search_string ⟨false, ["ab".data], "ab".data⟩ (goodFile "zz".data)
      " ab ".data = STRING_EXISTS :=
  ((C2_check_order ⟨false, ["ab".data], "ab".data⟩ (goodFile "zz".data)
    " ab ".data (by decide)).2 rfl).1 (by decide) (goodFile "zz".data)

/-- C3 (amended): corpus I/O failure conditions (file missing, not a
regular file, or an error inside the binary open/mmap/encode/find block)
make the memory-mapped scan return `STRING NOT FOUND`; consequently the
dynamic-mode search returns `STRING NOT FOUND`, the static-mode search
can return `STRING EXISTS` only out of the initialization-time cache, and
the result is always one of the two tokens — never a propagated
exception. -/
theorem C3_io_error_handling (srv : Server) (fs : FileState) (q : List Char)
    (herr : fs.present = false ∨ fs.regular = false ∨ fs.scanOk = false) :
    _mmap_search fs (pystrip q) = STRING_NOT_FOUND ∧
    (srv.reread_on_query = true →
      search_string srv fs q = STRING_NOT_FOUND) ∧
    (srv.reread_on_query = false →
      search_string srv fs q = STRING_EXISTS →
      isSub (pystrip q) srv.file_content = true ∨
        pystrip q ∈ srv.file_lines) ∧
    (search_string srv fs q = STRING_EXISTS ∨
      search_string srv fs q = STRING_NOT_FOUND) := by
  refine ⟨mmap_err (pystrip q) herr, ?_, ?_, search_token srv fs q⟩
  · intro hr
    by_cases hq0 : pystrip q = []
    · exact search_empty_query srv fs hq0
    · rcases srv with ⟨r, lines, content⟩
      simp only at hr
      subst hr
      rw [search_dynamic_eval lines content fs hq0]
      exact mmap_err (pystrip q) herr
  · intro hr hex
    by_cases hq0 : pystrip q = []
    · rw [search_empty_query srv fs hq0] at hex
      exact absurd hex.symm tokens_ne
    · rcases srv with ⟨r, lines, content⟩
      simp only at hr
      subst hr
      rw [search_static_eval lines content fs hq0] at hex
      by_cases hsub : isSub (pystrip q) content = true
      · exact Or.inl hsub
      · rw [if_neg (by simpa using hsub)] at hex
        by_cases hcon : lines.contains (pystrip q) = true
        · exact Or.inr (contains_iff_mem.mp hcon)
        · rw [if_neg (by simpa using hcon), mmap_err (pystrip q) herr] at hex
          exact absurd hex.symm tokens_ne

/-- Counterexample for C3 as stated: with the corpus file loaded at
initialization and then missing at query time, a cached query is answered
`STRING EXISTS`, not `STRING NOT FOUND`. -/
theorem C3_counterexample :
    search_string (initServer false (goodFile "apple\n".data))
        ⟨false, false, false, false, []⟩ "apple".data = STRING_EXISTS ∧
      search_string (initServer false (goodFile "apple\n".data))
        ⟨false, false, false, false, []⟩ "apple".data ≠ STRING_NOT_FOUND := by
  decide

/-- Witness for C3 at a concrete missing file in dynamic mode. -/
theorem C3_witness :
    _mmap_search ⟨false, false, false, false, "apple".data⟩
        (pystrip "apple".data) = STRING_NOT_FOUND ∧
      search_string ⟨true, [], []⟩ ⟨false, false, false, false, "apple".data⟩
        "apple".data = STRING_NOT_FOUND :=
  ⟨(C3_io_error_handling ⟨true, [], []⟩ ⟨false, false, false, false,
      "apple".data⟩ "apple".data (Or.inl rfl)).1,
   (C3_io_error_handling ⟨true, [], []⟩ ⟨false, false, false, false,
      "apple".data⟩ "apple".data (Or.inl rfl)).2.1 rfl⟩

/-- C1 (amended): for a readable corpus file unchanged since static-mode
initialization, a query whose whitespace-trimmed form is non-empty and
that occurs verbatim as a full line of the corpus is answered
`STRING EXISTS`; and a query whose trimmed form contains no newline and
does not occur anywhere in the corpus text is answered
`STRING NOT FOUND`. -/
theorem C1_full_line_search (fs : FileState) (q : List Char) :
    (fs.good → q ∈ univLines fs.data → pystrip q ≠ [] →
      search_string (initServer false fs) fs q = STRING_EXISTS) ∧
    ('\n' ∉ pystrip q → isSub (pystrip q) fs.data = false →
      search_string (initServer false fs) fs q = STRING_NOT_FOUND) := by
  constructor
  · intro hg hline hq
    have hread : _read_file fs =
        (univLines fs.data).filter (fun l => !(pystrip l).isEmpty) := by
      unfold _read_file
      rw [if_pos]
      rw [hg.1, hg.2.1, hg.2.2.1]
      rfl
    have hmem : q ∈ _read_file fs := by
      rw [hread]
      exact List.mem_filter.mpr ⟨hline, by simpa [List.isEmpty_iff] using hq⟩
    have hne : _read_file fs ≠ [] := fun h0 => by
      rw [h0] at hmem
      simp at hmem
    rcases load_file_cases fs with ⟨h0, _⟩ | ⟨_, heq⟩
    · exact absurd h0 hne
    · rw [initServer_static, heq]
      dsimp only
      rw [search_static_eval _ _ _ hq, if_pos]
      exact (isSub_iff _ _).mpr
        ((pystrip_inf_self q).trans (mem_joinLines_inf hmem))
  · intro hnl hsub
    have hq : pystrip q ≠ [] := by
      intro h0
      rw [h0, isSub_nil_left] at hsub
      cases hsub
    rw [initServer_static]
    rcases load_file_cases fs with ⟨h0, heq⟩ | ⟨hne, heq⟩
    · rw [heq]
      dsimp only
      rw [search_static_eval _ _ _ hq, if_neg (by simp [isSub_nil_right hq]),
        if_neg (by simp)]
      exact mmap_not_found hsub
    · rw [heq]
      dsimp only
      rw [search_static_eval _ _ _ hq]
      have hnc : isSub (pystrip q) (joinLines (_read_file fs)) = false := by
        by_contra hc
        have hc2 : isSub (pystrip q) (joinLines (_read_file fs)) = true := by
          simpa using hc
        obtain ⟨l, hl, hql⟩ :=
          joinLines_split hq hnl ((isSub_iff _ _).mp hc2)
        have hdata : l <:+: fs.data := univLines_mem_inf (read_file_mem hl).1
        rw [(isSub_iff _ _).mpr (hql.trans hdata)] at hsub
        cases hsub
      rw [if_neg (by simp [hnc])]
      have hncon : (_read_file fs).contains (pystrip q) = false := by
        by_contra hc
        have hc2 : (_read_file fs).contains (pystrip q) = true := by
          simpa using hc
        have hmem := contains_iff_mem.mp hc2
        have hdata : pystrip q <:+: fs.data :=
          univLines_mem_inf (read_file_mem hmem).1
        rw [(isSub_iff _ _).mpr hdata] at hsub
        cases hsub
      have hncon2 : ¬((_read_file fs).contains (pystrip q) = true) := by
        rw [hncon]; simp
      rw [if_neg hncon2]
      exact mmap_not_found hsub

/-- Counterexample for C1 as stated, in three parts: a non-empty
whitespace-only query that occurs verbatim as a full corpus line is
answered `STRING NOT FOUND`; a query with trailing whitespace that occurs
nowhere in the corpus text is answered `STRING EXISTS`; and a
newline-containing query that occurs nowhere in the corpus text is
answered `STRING EXISTS` because blank lines are dropped before the cache
join. -/
theorem C1_counterexample :
    (" ".data ≠ [] ∧ " ".data ∈ univLines "x\n \n".data ∧
      search_string (initServer false (goodFile "x\n \n".data))
        (goodFile "x\n \n".data) " ".data = STRING_NOT_FOUND) ∧
    (isSub "ab ".data "ab\n".data = false ∧
      search_string (initServer false (goodFile "ab\n".data))
        (goodFile "ab\n".data) "ab ".data = STRING_EXISTS) ∧
    (isSub "a\nb".data "a\n\nb\n".data = false ∧
      search_string (initServer false (goodFile "a\n\nb\n".data))
        (goodFile "a\n\nb\n".data) "a\nb".data = STRING_EXISTS) := by
  decide

/-- Witness for C1 at a concrete two-line corpus. -/
theorem C1_witness :
    search_string (initServer false (goodFile "apple\nbanana\n".data))
        (goodFile "apple\nbanana\n".data) "apple".data = STRING_EXISTS ∧
      search_string (initServer false (goodFile "apple\nbanana\n".data))
        (goodFile "apple\nbanana\n".data) "zebra".data = STRING_NOT_FOUND :=
  ⟨(C1_full_line_search (goodFile "apple\nbanana\n".data) "apple".data).1
      (by decide) (by decide) (by decide),
   (C1_full_line_search (goodFile "apple\nbanana\n".data) "zebra".data).2
      (by decide) (by decide)⟩

/-- C4 (amended): for every non-empty received chunk the handler derives
the query by decoding with invalid UTF-8 bytes dropped (not replaced),
stripping trailing NUL bytes only (embedded NULs are preserved), and
trimming surrounding whitespace; an empty derived query is answered
`STRING NOT FOUND\n` immediately, independently of the server and corpus
state; otherwise the reply is the search result followed by one newline;
and the reply is always exactly one status token plus a single newline —
the query is never echoed. -/
theorem C4_handler_response (srv : Server) (fs : FileState) (data : List Nat)
    (_hne : data ≠ []) :
    (queryOfChunk data = [] →
      ∀ (srv2 : Server) (fs2 : FileState),
        handle_chunk srv2 fs2 data = STRING_NOT_FOUND ++ ['\n']) ∧
    (queryOfChunk data ≠ [] →
      handle_chunk srv fs data =
        search_string srv fs (queryOfChunk data) ++ ['\n']) ∧
    (handle_chunk srv fs data = STRING_EXISTS ++ ['\n'] ∨
      handle_chunk srv fs data = STRING_NOT_FOUND ++ ['\n']) := by
  refine ⟨?_, ?_, ?_⟩
  · intro h0 srv2 fs2
    unfold handle_chunk
    rw [if_pos (by simp [h0])]
  · intro h0
    unfold handle_chunk
    rw [if_neg (by simpa [List.isEmpty_iff] using h0)]
  · unfold handle_chunk
    by_cases h0 : (queryOfChunk data).isEmpty = true
    · rw [if_pos h0]
      exact Or.inr rfl
    · rw [if_neg h0]
      rcases search_token srv fs (queryOfChunk data) with h | h <;> rw [h]
      · exact Or.inl rfl
      · exact Or.inr rfl

/-- Counterexample for C4 as stated, in two parts.  First, embedded NUL
bytes are not stripped: for the chunk `a\x00b` against the corpus line
`ab` the handler answers `STRING NOT FOUND\n`, while the query derived by
stripping embedded NULs would be found.  Second, invalid UTF-8 is
dropped, not replaced: for the chunk `\xffa` against the corpus line `a`
the handler answers `STRING EXISTS\n`, while the query derived by
replacement decoding would not be found. -/
theorem C4_counterexample :
    (handle_chunk (initServer false (goodFile "ab\n".data))
        (goodFile "ab\n".data) [0x61, 0x00, 0x62] =
          STRING_NOT_FOUND ++ ['\n'] ∧
      search_string (initServer false (goodFile "ab\n".data))
        (goodFile "ab\n".data)
        (pystrip ((decodeIgnore [0x61, 0x00, 0x62]).filter
          (fun c => c ≠ '\x00'))) = STRING_EXISTS) ∧
    (handle_chunk (initServer false (goodFile "a\n".data))
        (goodFile "a\n".data) [0xff, 0x61] = STRING_EXISTS ++ ['\n'] ∧
      search_string (initServer false (goodFile "a\n".data))
        (goodFile "a\n".data)
        (pystrip (rstripNul (decodeReplaceSpec [0xff, 0x61]))) =
          STRING_NOT_FOUND) := by
  decide

/-- Witness for C4 at a concrete query chunk and a whitespace chunk. -/
theorem C4_witness :
    handle_chunk (initServer false (goodFile "apple\n".data))
        (goodFile "apple\n".data) [0x61, 0x70, 0x70, 0x6c, 0x65] =
      search_string (initServer false (goodFile "apple\n".data))
        (goodFile "apple\n".data)
        (queryOfChunk [0x61, 0x70, 0x70, 0x6c, 0x65]) ++ ['\n'] ∧
    handle_chunk (initServer false (goodFile "apple\n".data))
        (goodFile "apple\n".data) [0x20] = STRING_NOT_FOUND ++ ['\n'] :=
  ⟨(C4_handler_response (initServer false (goodFile "apple\n".data))
      (goodFile "apple\n".data) [0x61, 0x70, 0x70, 0x6c, 0x65]
      (by decide)).2.1 (by decide),
   (C4_handler_response (initServer false (goodFile "apple\n".data))
      (goodFile "apple\n".data) [0x20] (by decide)).1 (by decide) _ _⟩

/-- C5 (amended): a successfully produced server-side context requires
peer certificates exactly when a CA file was supplied and client
verification was explicitly requested via `verify_client`; in
particular, with the `verify_client=False` default used by the server, a
supplied CA file does not turn verification on, and with no CA file
verification is off. -/
theorem C5_ca_verification (files : List (List Char))
    (certfile keyfile cafile psk : Option (List Char))
    (verify_client loadChainOk : Bool) (ctx : SSLCtx)
    (h : create_ssl_context files certfile keyfile cafile psk true
      verify_client loadChainOk = .ok ctx) :
    ctx.verifyRequired = (truthy cafile && verify_client) := by
  unfold create_ssl_context at h
  split at h
  · exact Except.noConfusion h
  split at h
  · exact Except.noConfusion h
  dsimp only at h
  split at h <;> rename_i h1
  · exact Except.noConfusion h
  · rename_i c1
    split at h <;> rename_i h2
    · exact Except.noConfusion h
    · rename_i c2
      cases h
      split at h2 <;> rename_i hca
      · split at h2
        · exact Except.noConfusion h2
        · cases h2
          split at h1 <;> rename_i hck
          · split at h1
            · exact Except.noConfusion h1
            split at h1
            · exact Except.noConfusion h1
            split at h1
            · exact Except.noConfusion h1
            · cases h1
              simp [hca]
          · cases h1
            simp [hca]
      · cases h2
        split at h1 <;> rename_i hck
        · split at h1
          · exact Except.noConfusion h1
          split at h1
          · exact Except.noConfusion h1
          split at h1
          · exact Except.noConfusion h1
          · cases h1
            simp [Bool.not_eq_true] at hca
            simp [hca]
        · cases h1
          simp [Bool.not_eq_true] at hca
          simp [hca]

/-- Counterexample for C5 as stated: a server-side context built with an
existing CA file (and a PSK as the authentication method) leaves peer
verification off. -/
theorem C5_counterexample :
    create_ssl_context ["ca".data] none none (some "ca".data)
        (some "secretkey".data) true false true =
      .ok ⟨true, false, false, true, true⟩ ∧
    (⟨true, false, false, true, true⟩ : SSLCtx).verifyRequired = false := by
  decide

/-- Witness for C5 at the concrete context of the counterexample setup. -/
theorem C5_witness :
    (⟨true, false, false, true, true⟩ : SSLCtx).verifyRequired =
      (truthy (some "ca".data) && false) :=
  C5_ca_verification ["ca".data] none none (some "ca".data)
    (some "secretkey".data) false true ⟨true, false, false, true, true⟩
    (by decide)

/-- C6 (amended): with `ssl_enabled` true, a TLS context construction
failure of kind `ValueError` (no authentication method or a one-sided
cert/key pair) or `FileNotFoundError` (a referenced file missing) is
caught: initialization completes with `ssl_enabled` cleared and the
context absent, so the server starts in plaintext; but an `ssl.SSLError`
raised while loading an existing, invalid certificate chain is not
caught and aborts initialization. -/
theorem C6_ssl_degrade (cfg : ConfigRec) (fs : FileState)
    (files : List (List Char)) (loadChainOk : Bool)
    (hssl : cfg.ssl_enabled = true) :
    ((create_ssl_context files cfg.certfile cfg.keyfile cfg.cafile cfg.psk
        true false loadChainOk = .error .valueError ∨
      create_ssl_context files cfg.certfile cfg.keyfile cfg.cafile cfg.psk
        true false loadChainOk = .error .fileNotFound) →
      init_with_ssl cfg fs files loadChainOk =
        .ok ⟨initServer cfg.reread_on_query fs, false, none⟩) ∧
    (create_ssl_context files cfg.certfile cfg.keyfile cfg.cafile cfg.psk
        true false loadChainOk = .error .sslError →
      init_with_ssl cfg fs files loadChainOk = .error ()) := by
  unfold init_with_ssl
  rw [hssl]
  constructor
  · rintro (h | h) <;> rw [if_pos rfl, h]
  · intro h
    rw [if_pos rfl, h]

/-- Counterexample for C6 as stated: an existing but invalid
certificate/key pair makes `load_cert_chain` raise `ssl.SSLError`, which
the initializer does not catch — initialization aborts instead of
completing in plaintext. -/
theorem C6_counterexample :
    create_ssl_context ["c".data, "k".data] (some "c".data) (some "k".data)
        none none true false false = .error .sslError ∧
    init_with_ssl
        { ssl_enabled := true, certfile := some "c".data, keyfile := some "k".data }
        (goodFile "x\n".data) ["c".data, "k".data] false = .error () := by
  decide

/-- Witness for C6 at a configuration with no authentication method. -/
theorem C6_witness :
    init_with_ssl { ssl_enabled := true } (goodFile "x\n".data) [] true =
      .ok ⟨initServer false (goodFile "x\n".data), false, none⟩ :=
  (C6_ssl_degrade { ssl_enabled := true } (goodFile "x\n".data) [] true
    rfl).1 (Or.inl (by decide))

/-! ### Configuration loader lemmas -/

theorem processKV_error_validation {cfg : ConfigRec} {key value : List Char}
    {e : ConfigErr} (h : processKV cfg key value = .error e) :
    e = .validation := by
  revert h
  unfold processKV
  repeat' split
  all_goals intro h
  all_goals first
    | exact Except.noConfusion h
    | exact (Except.error.inj h).symm

theorem process_line_error_validation {cfg : ConfigRec} {l : List Char}
    {e : ConfigErr} (h : process_line cfg l = .error e) : e = .validation := by
  revert h
  unfold process_line
  split
  · intro h; exact Except.noConfusion h
  split
  · intro h; exact Except.noConfusion h
  split
  · intro h; exact Except.noConfusion h
  · intro h; exact processKV_error_validation h

theorem run_lines_error_validation :
    ∀ {ls : List (List Char)} {cfg : ConfigRec} {e : ConfigErr},
      run_lines cfg ls = .error e → e = .validation := by
  intro ls
  induction ls with
  | nil => intro cfg e h; exact Except.noConfusion h
  | cons l rest ih =>
    intro cfg e h
    unfold run_lines at h
    split at h
    · exact ih h
    · rename_i e2 hp
      cases h
      exact process_line_error_validation hp

theorem bad_port_line_errors {raw : List Char} (h1 : IsPortLine raw)
    (h2 : BadPortValue raw = true) (cfg : ConfigRec) :
    process_line cfg raw = .error .validation := by
  obtain ⟨he, hh, hc, hk⟩ := h1
  unfold process_line
  rw [if_neg (by simp [he]), if_neg hh, if_neg (by rw [hc]; simp)]
  unfold processKV
  rw [hk, if_neg (by decide), if_neg (by decide), if_pos rfl]
  unfold BadPortValue at h2
  rcases hp : parseIntPy (lineValue raw) with _ | p
  · rfl
  · rw [hp] at h2
    dsimp only at h2 ⊢
    have hn : ¬(1 ≤ p ∧ p ≤ 65535) := by
      intro hand
      simp [hand.1, hand.2] at h2
    rw [if_neg hn]

theorem processKV_port_range {cfg cfg2 : ConfigRec} {key value : List Char}
    (h : processKV cfg key value = .ok cfg2)
    (hr : 1 ≤ cfg.port ∧ cfg.port ≤ 65535) :
    1 ≤ cfg2.port ∧ cfg2.port ≤ 65535 := by
  revert h
  unfold processKV
  repeat' split
  all_goals intro h
  all_goals first
    | exact Except.noConfusion h
    | (cases h; assumption)

theorem process_line_port_range {cfg cfg2 : ConfigRec} {raw : List Char}
    (h : process_line cfg raw = .ok cfg2)
    (hr : 1 ≤ cfg.port ∧ cfg.port ≤ 65535) :
    1 ≤ cfg2.port ∧ cfg2.port ≤ 65535 := by
  revert h
  unfold process_line
  split
  · intro h; cases h; exact hr
  split
  · intro h; cases h; exact hr
  split
  · intro h; cases h; exact hr
  · intro h; exact processKV_port_range h hr

theorem processKV_linuxpath_set {cfg cfg2 : ConfigRec} {key value : List Char}
    (h : processKV cfg key value = .ok cfg2)
    (hk : key = "linuxpath".data ∨ key = "file_path".data) :
    cfg2.linuxpath = value := by
  revert h
  unfold processKV
  rw [if_pos hk]
  intro h
  cases h
  rfl

theorem processKV_linuxpath_keep {cfg cfg2 : ConfigRec} {key value : List Char}
    (h : processKV cfg key value = .ok cfg2)
    (hk : ¬(key = "linuxpath".data ∨ key = "file_path".data)) :
    cfg2.linuxpath = cfg.linuxpath := by
  revert h
  unfold processKV
  rw [if_neg hk]
  repeat' split
  all_goals intro h
  all_goals first
    | exact Except.noConfusion h
    | (cases h; rfl)

theorem process_line_linuxpath_dot {cfg cfg2 : ConfigRec} {raw : List Char}
    (h : process_line cfg raw = .ok cfg2)
    (hc : IsCorpusPathLine raw → lineValue raw = ".".data)
    (hd : cfg.linuxpath = ".".data) :
    cfg2.linuxpath = ".".data := by
  revert h
  unfold process_line
  split
  · intro h; cases h; exact hd
  split
  · intro h; cases h; exact hd
  split
  · intro h; cases h; exact hd
  · rename_i h1 h2 h3
    intro h
    by_cases hk : lineKey raw = "linuxpath".data ∨ lineKey raw = "file_path".data
    · rw [processKV_linuxpath_set h hk]
      exact hc ⟨by simpa using h1, h2, by simpa using h3, hk⟩
    · rw [processKV_linuxpath_keep h hk]
      exact hd

theorem run_lines_bad_port :
    ∀ {ls : List (List Char)},
      (∃ l ∈ ls, IsPortLine l ∧ BadPortValue l = true) →
      ∀ cfg : ConfigRec, ∃ e, run_lines cfg ls = .error e := by
  intro ls
  induction ls with
  | nil => rintro ⟨l, hl, _⟩ cfg; simp at hl
  | cons a rest ih =>
    rintro ⟨l, hl, hbad⟩ cfg
    unfold run_lines
    rcases List.mem_cons.mp hl with h | h
    · subst h
      rw [bad_port_line_errors hbad.1 hbad.2 cfg]
      exact ⟨.validation, rfl⟩
    · rcases hp : process_line cfg a with e | cfg2
      · exact ⟨e, rfl⟩
      · exact ih ⟨l, h, hbad⟩ cfg2

theorem run_lines_linuxpath_dot :
    ∀ {ls : List (List Char)},
      (∀ l ∈ ls, IsCorpusPathLine l → lineValue l = ".".data) →
      ∀ {cfg cfg2 : ConfigRec}, run_lines cfg ls = .ok cfg2 →
        cfg.linuxpath = ".".data → cfg2.linuxpath = ".".data := by
  intro ls
  induction ls with
  | nil =>
    intro _ cfg cfg2 h hd
    cases h
    exact hd
  | cons a rest ih =>
    intro hall cfg cfg2 h hd
    unfold run_lines at h
    split at h
    · rename_i cfg1 hp
      exact ih (fun l hl => hall l (List.mem_cons_of_mem a hl)) h
        (process_line_linuxpath_dot hp (hall a (List.mem_cons_self a rest)) hd)
    · exact Except.noConfusion h

theorem run_lines_port_range :
    ∀ {ls : List (List Char)} {cfg cfg2 : ConfigRec},
      run_lines cfg ls = .ok cfg2 → 1 ≤ cfg.port ∧ cfg.port ≤ 65535 →
      1 ≤ cfg2.port ∧ cfg2.port ≤ 65535 := by
  intro ls
  induction ls with
  | nil =>
    intro cfg cfg2 h hr
    cases h
    exact hr
  | cons a rest ih =>
    intro cfg cfg2 h hr
    unfold run_lines at h
    split at h
    · rename_i cfg1 hp
      exact ih h (process_line_port_range hp hr)
    · exact Except.noConfusion h

/-- C7: a missing config file fails with the file-not-found kind; a port
line with a non-numeric or out-of-range value fails the whole load with
the validation kind; a file with no corpus-path line fails with the
validation kind after parsing; and a successfully returned configuration
always has a port in 1-65535 and a non-empty corpus path. -/
theorem C7_config_loading (fileLines : List (List Char)) :
    (load_config false fileLines = .error .fileNotFound) ∧
    ((∃ l ∈ fileLines, IsPortLine l ∧ BadPortValue l = true) →
      load_config true fileLines = .error .validation) ∧
    ((∀ l ∈ fileLines, ¬IsCorpusPathLine l) →
      load_config true fileLines = .error .validation) ∧
    (∀ cfg : ConfigRec, load_config true fileLines = .ok cfg →
      1 ≤ cfg.port ∧ cfg.port ≤ 65535 ∧ cfg.linuxpath ≠ []) := by
  refine ⟨rfl, ?_, ?_, ?_⟩
  · intro hbad
    obtain ⟨e, he⟩ := run_lines_bad_port hbad {}
    have hv := run_lines_error_validation he
    subst hv
    unfold load_config
    rw [if_neg (by simp), he]
  · intro hnone
    unfold load_config
    rw [if_neg (by simp)]
    rcases hrl : run_lines {} fileLines with e | cfg2
    · have hv := run_lines_error_validation hrl
      subst hv
      rfl
    · have hdot : cfg2.linuxpath = ".".data :=
        run_lines_linuxpath_dot
          (fun l hl hc => absurd hc (hnone l hl)) hrl rfl
      dsimp only
      rw [if_pos (by simp [hdot])]
  · intro cfg h
    unfold load_config at h
    rw [if_neg (by simp)] at h
    rcases hrl : run_lines {} fileLines with e | cfg2
    · rw [hrl] at h
      exact Except.noConfusion h
    · rw [hrl] at h
      dsimp only at h
      by_cases hcond :
          (cfg2.linuxpath.isEmpty || decide (cfg2.linuxpath = ".".data)) = true
      · rw [if_pos hcond] at h
        exact Except.noConfusion h
      · rw [if_neg hcond] at h
        cases h
        have hrange := run_lines_port_range hrl (by constructor <;> decide)
        refine ⟨hrange.1, hrange.2, ?_⟩
        intro h0
        exact hcond (by simp [h0])

/-- Witness for C7 at concrete configuration files. -/
theorem C7_witness :
    load_config false [] = .error .fileNotFound ∧
    load_config true ["port=70000".data] = .error .validation ∧
    load_config true ["host=127.0.0.1".data] = .error .validation ∧
    (1 ≤ ({ linuxpath := "a".data } : ConfigRec).port ∧
      ({ linuxpath := "a".data } : ConfigRec).port ≤ 65535 ∧
      ({ linuxpath := "a".data } : ConfigRec).linuxpath ≠ []) :=
  ⟨(C7_config_loading []).1,
   (C7_config_loading ["port=70000".data]).2.1
     ⟨"port=70000".data, by decide, by decide, by decide⟩,
   (C7_config_loading ["host=127.0.0.1".data]).2.2.1 (by decide),
   (C7_config_loading ["linuxpath=a".data]).2.2.2
     { linuxpath := "a".data } (by decide)⟩

/-- C10: a configuration whose every corpus-path line carries exactly the
value `.` — in particular a configuration with no corpus-path line at
all — fails with the validation error, because `.` is also the sentinel
default that the post-parse check rejects. -/
theorem C10_dot_corpus_path_rejected (fileLines : List (List Char))
    (hall : ∀ l ∈ fileLines, IsCorpusPathLine l → lineValue l = ".".data) :
    load_config true fileLines = .error .validation := by
  unfold load_config
  rw [if_neg (by simp)]
  rcases hrl : run_lines {} fileLines with e | cfg2
  · have hv := run_lines_error_validation hrl
    subst hv
    rfl
  · have hdot : cfg2.linuxpath = ".".data :=
      run_lines_linuxpath_dot hall hrl rfl
    dsimp only
    rw [if_pos (by simp [hdot])]

/-- Witness for C10: the value `.` and the missing-key case both fail. -/
theorem C10_witness :
    load_config true ["linuxpath=.".data] = .error .validation ∧
    load_config true ["host=127.0.0.1".data, "port=4".data] =
      .error .validation :=
  ⟨C10_dot_corpus_path_rejected ["linuxpath=.".data] (by decide),
   C10_dot_corpus_path_rejected ["host=127.0.0.1".data, "port=4".data]
     (by decide)⟩

end StringSearch
